import Mathlib

/-
Verification of the per-key, single-flight, cancel-and-coalesce asynchronous
work scheduler in pkg/util/asyncworker/async_workers.go.

The embedding models the scheduler state (the work-status table, the
pending-replacement table `lastUndeliveredWork`, the heap of cancellable
contexts, and the set of dispatched in-flight executions) and the
lock-protected operations `AddWork`, `handleWork`, `completeWork`,
`contextForWork`, `resetWorkStatus` and `cleanupWorkStatus` as pure
functions on that state.  Concurrency is modelled by a step relation:
each step is one lock-protected critical section (or the end of a
dispatched goroutine), and a dispatched execution sits in `inflight`
from the moment its goroutine is launched until the moment it finishes.

Go contexts are modelled by indices into a list of "canceled" flags:
`context.WithCancel(context.Background())` allocates a fresh index with
flag `false`; calling the cancel function sets the flag; `ctx.Err() ==
context.Canceled` reads the flag (the context has no deadline, so its
error is nil until it is canceled).
-/

namespace Asyncworker

/-- Behaviour of a submitted work function when it is invoked: it either
returns nil, returns a non-nil error, or panics (a language-level crash
that unwinds the goroutine). -/
inductive FnBehavior where
  | ok : FnBehavior
  | fail : String → FnBehavior
  | crash : FnBehavior
  deriving DecidableEq, Repr

/-- One unit of asynchronous work (struct `Work`): the executable function
`Fn` (here abstracted by its behaviour; `none` models a nil function
pointer), its positional `Params` (opaque, modelled as naturals) and the
submission timestamp `DeliveredAt`. -/
structure Work where
  Fn : Option FnBehavior
  Params : List Nat
  DeliveredAt : Nat
  deriving DecidableEq, Repr

/-- Per-key mutable status (struct `workStatus`): the `working` flag, the
execution context `ctx` and its cancel function `cancelFn` (both `none`
when still nil; a cancel function is identified by the context index it
cancels), the currently running `work`, and `startedAt`. -/
structure workStatus where
  working : Bool
  ctx : Option Nat
  cancelFn : Option Nat
  work : Option Work
  startedAt : Nat
  deriving DecidableEq, Repr

/-- The scheduler (struct `AsyncWorkers`) together with the context heap and
the dispatched executions, which in Go live outside the struct (goroutines
and `context` objects).  `workStatuses` and `lastUndeliveredWork` are the
two tables guarded by `workLock`; an entry `(k, none)` in `workStatuses`
models a nil `*workStatus` stored under key `k`.  `inflight` holds one
entry `(key, ctx, work)` per dispatched goroutine that has not yet
finished. -/
structure AsyncWorkers where
  name : String
  workStatuses : List (String × Option workStatus)
  lastUndeliveredWork : List (String × Work)
  ctxCanceled : List Bool
  inflight : List (String × Nat × Work)
  deriving DecidableEq, Repr

/-- Function `NewAsyncWorkers` returns a scheduler with empty tables. -/
def NewAsyncWorkers (name : String) : AsyncWorkers :=
  { name := name, workStatuses := [], lastUndeliveredWork := [],
    ctxCanceled := [], inflight := [] }

/-- Go map lookup `m[k]` on an association list. -/
def alookup {β : Type} (k : String) : List (String × β) → Option β
  | [] => none
  | p :: t => if p.1 = k then some p.2 else alookup k t

/-- Go map assignment `m[k] = v` on an association list. -/
def aset {β : Type} (k : String) (v : β) : List (String × β) → List (String × β)
  | [] => [(k, v)]
  | p :: t => if p.1 = k then (k, v) :: t else p :: aset k v t

/-- Go map deletion `delete(m, k)` on an association list. -/
def adel {β : Type} (k : String) : List (String × β) → List (String × β)
  | [] => []
  | p :: t => if p.1 = k then adel k t else p :: adel k t

/-- Whether the context with index `i` has been canceled (`ctx.Err() ==
context.Canceled`); an unallocated index reads as not canceled. -/
def ctxIsCanceled (cs : List Bool) (i : Nat) : Bool := cs.getD i false

/-- Modelled from the spec: the method `workStatus.IsWorking` is declared in
this package's types file, which is not among the provided sources; spec
§3 gives `WorkStatus` the field `isWorking (bool)` read by `AddWork`. -/
def workStatus.IsWorking (st : workStatus) : Bool := st.working

/-- Modelled from the spec: the function `validateWork` is declared in this
package's types file, which is not among the provided sources; spec §4.1:
"`work` must carry a non-null executable function (else fails with a
validation error: invalid work, and nothing is scheduled or mutated)". -/
def validateWork (w : Option Work) : Option String :=
  match w with
  | none => some "nil work"
  | some wk =>
    match wk.Fn with
    | none => some "nil work fn"
    | some _ => none

/-- Result of `contextForWork` and `completeWork`: `Except.error` models a
`general.Fatalf` process abort on an internal inconsistency. -/
abbrev FatalOr (α : Type) := Except String α

/-- Function `contextForWork` (async_workers.go:142-160): fatal on a nil work or a
missing status; otherwise, if the key's context is nil or already
canceled, allocate a fresh cancellable context (and its cancel function),
else reuse the existing context object; in all cases mark the status
working, point it at `work`, stamp `startedAt`, and return the context. -/
def contextForWork (s : AsyncWorkers) (k : String) (w : Option Work) (now : Nat) :
    FatalOr (AsyncWorkers × Nat) :=
  match w with
  | none => Except.error ("contextForWork: " ++ k ++ " got nil work")
  | some wk =>
    match alookup k s.workStatuses with
    | some (some st) =>
      match st.ctx with
      | none =>
        let i := s.ctxCanceled.length
        let st2 : workStatus :=
          { working := true, ctx := some i, cancelFn := some i,
            work := some wk, startedAt := now }
        Except.ok ({ s with ctxCanceled := s.ctxCanceled ++ [false],
                            workStatuses := aset k (some st2) s.workStatuses }, i)
      | some i =>
        if ctxIsCanceled s.ctxCanceled i then
          let j := s.ctxCanceled.length
          let st2 : workStatus :=
            { working := true, ctx := some j, cancelFn := some j,
              work := some wk, startedAt := now }
          Except.ok ({ s with ctxCanceled := s.ctxCanceled ++ [false],
                              workStatuses := aset k (some st2) s.workStatuses }, j)
        else
          let st2 : workStatus :=
            { st with working := true, work := some wk, startedAt := now }
          Except.ok ({ s with workStatuses := aset k (some st2) s.workStatuses }, i)
    | _ => Except.error ("contextForWork: " ++ k ++ " got no status")

/-- Function `resetWorkStatus` (async_workers.go:165-175): fatal on a missing status;
otherwise clear `working`, `work` and `startedAt`, retaining the
context/cancel pair. -/
def resetWorkStatus (s : AsyncWorkers) (k : String) : FatalOr AsyncWorkers :=
  match alookup k s.workStatuses with
  | some (some st) =>
    let st2 : workStatus := { st with working := false, work := none, startedAt := 0 }
    Except.ok { s with workStatuses := aset k (some st2) s.workStatuses }
  | _ => Except.error ("resetWorkStatus: " ++ k ++ " got no status")

/-- Function `completeWork` (async_workers.go:113-137): under the lock, if a pending
replacement exists for the key, obtain its context, launch a new
dispatched execution for it and delete it from `lastUndeliveredWork`;
otherwise reset the status to idle.  The completed work and its error are
only logged (the TODO notes retrying is unsupported), so they do not
affect the state transition. -/
def completeWork (s : AsyncWorkers) (k : String) (completedWork : Work)
    (workErr : Option String) (now : Nat) : FatalOr AsyncWorkers :=
  match alookup k s.lastUndeliveredWork with
  | some w =>
    match contextForWork s k (some w) now with
    | Except.error m => Except.error m
    | Except.ok (s2, ci) =>
      Except.ok { s2 with inflight := s2.inflight ++ [(k, ci, w)],
                          lastUndeliveredWork := adel k s2.lastUndeliveredWork }
  | none => resetWorkStatus s k

/-- What invoking `work.Fn(ctx, work.Params...)` yields at the call site in
`handleWork`: `some e` when the function returns (with `e` its error, `none`
for nil), and `none` when the call panics — a nil `Fn` also panics when
called.  A panic unwinds `handleWork` before the `completeWork` line. -/
def fnResult (w : Work) : Option (Option String) :=
  match w.Fn with
  | some FnBehavior.ok => some none
  | some (FnBehavior.fail m) => some (some m)
  | _ => none

/-- One dispatched execution running to its end: the goroutine body is
`defer runtime.HandleCrash(); aws.handleWork(ctx, name, work)`
(async_workers.go:56-59 and 129-132) with `handleWork`
(async_workers.go:99-111) invoking `work.Fn` and then
`completeWork(name, work, err)`.  If `Fn` returns, `completeWork` runs with
the returned error; if `Fn` panics, `handleWork` unwinds without reaching
`completeWork` and the deferred `runtime.HandleCrash` absorbs the panic at
the goroutine boundary, leaving the scheduler state untouched. -/
def handleWork (s : AsyncWorkers) (ctx : Nat) (k : String) (w : Work) (now : Nat) :
    FatalOr AsyncWorkers :=
  match fnResult w with
  | some e => completeWork s k w e now
  | none => Except.ok s

/-- Result of `AddWork`: either a fatal process abort (`general.Fatalf` in
the busy branch) or a normal return carrying the new scheduler state and
the returned error value (`none` is the nil success return). -/
inductive AddResult where
  | fatal : String → AddResult
  | ret : AsyncWorkers → Option String → AddResult
  deriving DecidableEq, Repr

/-- The zero value `workStatus{}` allocated by `AddWork` for a new key. -/
def zeroWorkStatus : workStatus :=
  { working := false, ctx := none, cancelFn := none, work := none, startedAt := 0 }

/-- The status lookup-or-create prefix of `AddWork`
(async_workers.go:37-44): fetch the key's status; if the key is absent or
its stored pointer is nil, store and use a fresh zero-valued status. -/
def ensureStatus (s : AsyncWorkers) (k : String) : AsyncWorkers × workStatus :=
  match alookup k s.workStatuses with
  | some (some st) => (s, st)
  | _ =>
    ({ s with workStatuses := aset k (some zeroWorkStatus) s.workStatuses }, zeroWorkStatus)

/-- Function `AddWork` (async_workers.go:21-97): validate the work (returning the
validation error with nothing mutated); look up or create the key's
status; if the status is not working, obtain the context and launch a
dispatched execution, returning nil; if it is working, overwrite the
key's `lastUndeliveredWork` slot with the new work, fatal if the working
status has a nil `cancelFn` or a nil `work`, and otherwise invoke the
cancel function on the current context and return nil. -/
def AddWork (s : AsyncWorkers) (k : String) (w : Option Work) (now : Nat) : AddResult :=
  match validateWork w with
  | some m =>
    AddResult.ret s (some ("validateWork for: " ++ k ++ " failed with error: " ++ m))
  | none =>
    match w with
    | none => AddResult.ret s (some "unreachable: validateWork rejects nil work")
    | some wk =>
      let p := ensureStatus s k
      if p.2.IsWorking = false then
        match contextForWork p.1 k (some wk) now with
        | Except.error m => AddResult.fatal m
        | Except.ok (s2, ci) =>
          AddResult.ret { s2 with inflight := s2.inflight ++ [(k, ci, wk)] } none
      else
        let s3 := { p.1 with lastUndeliveredWork := aset k wk p.1.lastUndeliveredWork }
        match p.2.cancelFn with
        | none => AddResult.fatal (k ++ " nil cancelFn in working status")
        | some ci =>
          match p.2.work with
          | none => AddResult.fatal (k ++ " nil work in working status")
          | some _ =>
            AddResult.ret { s3 with ctxCanceled := s3.ctxCanceled.set ci true } none

/-- Whether one pass of the reaper keeps a status-table entry
(async_workers.go:187-195): entries with a nil status or a status not in
working are deleted. -/
def keepStatus (p : String × Option workStatus) : Bool :=
  match p.2 with
  | none => false
  | some st => st.working

/-- Function `cleanupWorkStatus` (async_workers.go:183-196): under the lock, delete
every status-table entry whose status is nil or not working. -/
def cleanupWorkStatus (s : AsyncWorkers) : AsyncWorkers :=
  { s with workStatuses := s.workStatuses.filter keepStatus }

/-- The key's status records it as working. -/
def workingAt (s : AsyncWorkers) (k : String) : Bool :=
  match alookup k s.workStatuses with
  | some (some st) => st.working
  | _ => false

/-- Number of entries for a given key in a list of dispatched executions. -/
def countKey (k : String) : List (String × Nat × Work) → Nat
  | [] => 0
  | en :: t => (if en.1 = k then 1 else 0) + countKey k t

/-- Number of in-flight executions of key `k`. -/
def countInflight (s : AsyncWorkers) (k : String) : Nat := countKey k s.inflight

/-- Remove the first occurrence of a finished execution from the in-flight
list (the goroutine exits). -/
def eraseFirst (en : String × Nat × Work) : List (String × Nat × Work) →
    List (String × Nat × Work)
  | [] => []
  | a :: t => if a = en then t else a :: eraseFirst en t

/-- One atomic step of the scheduler: an `AddWork` call that returns, the
end of a dispatched execution (the goroutine leaves `inflight`, then runs
the tail of `handleWork`), or one reaper pass. -/
inductive Step : AsyncWorkers → AsyncWorkers → Prop where
  | add {s s' : AsyncWorkers} (k : String) (w : Option Work) (now : Nat)
      (e : Option String) :
      AddWork s k w now = AddResult.ret s' e → Step s s'
  | finish {s s' : AsyncWorkers} (en : String × Nat × Work) (now : Nat) :
      en ∈ s.inflight →
      handleWork { s with inflight := eraseFirst en s.inflight } en.2.1 en.1 en.2.2 now
        = Except.ok s' →
      Step s s'
  | sweep {s : AsyncWorkers} : Step s (cleanupWorkStatus s)

/-- States reachable from a freshly constructed scheduler. -/
inductive Reachable : AsyncWorkers → Prop where
  | init (name : String) : Reachable (NewAsyncWorkers name)
  | step {s s' : AsyncWorkers} : Reachable s → Step s s' → Reachable s'

theorem alookup_aset_self {β : Type} (k : String) (v : β) (m : List (String × β)) :
    alookup k (aset k v m) = some v := by
  induction m with
  | nil => simp [aset, alookup]
  | cons p t ih =>
    obtain ⟨pk, pv⟩ := p
    by_cases h : pk = k
    · simp [aset, alookup, h]
    · simp [aset, alookup, h, ih]

theorem alookup_aset_ne {β : Type} (k k' : String) (v : β) (m : List (String × β))
    (h : k' ≠ k) : alookup k' (aset k v m) = alookup k' m := by
  have h' : ¬(k = k') := fun hh => h hh.symm
  induction m with
  | nil => simp [aset, alookup, h']
  | cons p t ih =>
    obtain ⟨pk, pv⟩ := p
    by_cases hp : pk = k
    · subst hp
      simp [aset, alookup, h']
    · by_cases hp' : pk = k'
      · subst hp'
        simp [aset, alookup, hp]
      · simp [aset, alookup, hp, hp', ih]

theorem alookup_adel_self {β : Type} (k : String) (m : List (String × β)) :
    alookup k (adel k m) = none := by
  induction m with
  | nil => simp [adel, alookup]
  | cons p t ih =>
    obtain ⟨pk, pv⟩ := p
    by_cases h : pk = k
    · simp [adel, h, ih]
    · simp [adel, alookup, h, ih]

theorem alookup_adel_ne {β : Type} (k k' : String) (m : List (String × β))
    (h : k' ≠ k) : alookup k' (adel k m) = alookup k' m := by
  induction m with
  | nil => simp [adel]
  | cons p t ih =>
    obtain ⟨pk, pv⟩ := p
    by_cases hp : pk = k
    · subst hp
      have h' : ¬(pk = k') := fun hh => h hh.symm
      simp [adel, alookup, h', ih]
    · simp [adel, alookup, hp, ih]

/-- Keys of an association list are pairwise distinct, stated through
`alookup`: every head key is absent from its tail. -/
def NodupKeys {β : Type} : List (String × β) → Prop
  | [] => True
  | p :: t => alookup p.1 t = none ∧ NodupKeys t

theorem nodupKeys_aset {β : Type} (k : String) (v : β) (m : List (String × β))
    (h : NodupKeys m) : NodupKeys (aset k v m) := by
  induction m with
  | nil => simp [aset, NodupKeys, alookup]
  | cons p t ih =>
    obtain ⟨pk, pv⟩ := p
    obtain ⟨h1, h2⟩ := h
    by_cases hp : pk = k
    · subst hp
      simp only [aset, NodupKeys, if_pos rfl]
      exact ⟨h1, h2⟩
    · have hne : alookup pk (aset k v t) = none := by
        rw [alookup_aset_ne k pk v t hp]
        exact h1
      simp only [aset, NodupKeys, if_neg hp]
      exact ⟨hne, ih h2⟩

theorem alookup_filter_none {β : Type} (p : String × β → Bool) (k : String)
    (m : List (String × β)) (h : alookup k m = none) :
    alookup k (m.filter p) = none := by
  induction m with
  | nil => simp [alookup]
  | cons q t ih =>
    obtain ⟨qk, qv⟩ := q
    by_cases hq : qk = k
    · simp [alookup, hq] at h
    · simp [alookup, hq] at h
      by_cases hp : p (qk, qv)
      · simp [List.filter_cons, hp, alookup, hq, ih h]
      · simp [List.filter_cons, hp, ih h]

theorem nodupKeys_filter {β : Type} (p : String × β → Bool) (m : List (String × β))
    (h : NodupKeys m) : NodupKeys (m.filter p) := by
  induction m with
  | nil => simp [NodupKeys]
  | cons q t ih =>
    obtain ⟨h1, h2⟩ := h
    by_cases hp : p q
    · have hne : alookup q.1 (t.filter p) = none := alookup_filter_none p q.1 t h1
      simp only [List.filter_cons, hp, if_pos rfl, NodupKeys]
      exact ⟨hne, ih h2⟩
    · simpa [List.filter_cons, hp] using ih h2

theorem alookup_filter {β : Type} (p : String × β → Bool) (k : String)
    (m : List (String × β)) (h : NodupKeys m) :
    alookup k (m.filter p) =
      (alookup k m).bind (fun v => if p (k, v) then some v else none) := by
  induction m with
  | nil => simp [alookup]
  | cons q t ih =>
    obtain ⟨qk, qv⟩ := q
    obtain ⟨h1, h2⟩ := h
    by_cases hq : qk = k
    · subst hq
      by_cases hp : p (qk, qv)
      · simp [List.filter_cons, hp, alookup]
      · simp [List.filter_cons, hp, alookup, alookup_filter_none p qk t h1]
    · by_cases hp : p (qk, qv)
      · simp [List.filter_cons, hp, alookup, hq, ih h2]
      · simp [List.filter_cons, hp, alookup, hq, ih h2]

theorem alookup_mem {β : Type} (k : String) (v : β) (m : List (String × β))
    (h : alookup k m = some v) : (k, v) ∈ m := by
  induction m with
  | nil => simp [alookup] at h
  | cons p t ih =>
    obtain ⟨pk, pv⟩ := p
    by_cases hp : pk = k
    · simp [alookup, hp] at h
      simp [hp, h]
    · simp [alookup, hp] at h
      exact List.mem_cons_of_mem _ (ih h)

theorem countKey_append (k : String) (l1 l2 : List (String × Nat × Work)) :
    countKey k (l1 ++ l2) = countKey k l1 + countKey k l2 := by
  induction l1 with
  | nil => simp [countKey]
  | cons a t ih => simp [countKey, ih]; omega

theorem countKey_pos_of_mem (k : String) (en : String × Nat × Work)
    (l : List (String × Nat × Work)) (hmem : en ∈ l) (hk : en.1 = k) :
    1 ≤ countKey k l := by
  induction l with
  | nil => simp at hmem
  | cons a t ih =>
    rcases List.mem_cons.mp hmem with h | h
    · subst h
      simp [countKey, hk]
    · have := ih h
      simp [countKey]
      omega

theorem countKey_eraseFirst_of_mem (k : String) (en : String × Nat × Work)
    (l : List (String × Nat × Work)) (hmem : en ∈ l) :
    countKey k l = countKey k (eraseFirst en l) + (if en.1 = k then 1 else 0) := by
  induction l with
  | nil => simp at hmem
  | cons a t ih =>
    by_cases ha : a = en
    · subst ha
      simp [eraseFirst, countKey]
      omega
    · rcases List.mem_cons.mp hmem with h | h
      · exact absurd h.symm ha
      · simp [eraseFirst, ha, countKey, ih h]
        omega

theorem mem_of_mem_eraseFirst (en a : String × Nat × Work)
    (l : List (String × Nat × Work)) (h : a ∈ eraseFirst en l) : a ∈ l := by
  induction l with
  | nil => simp [eraseFirst] at h
  | cons b t ih =>
    by_cases hb : b = en
    · subst hb
      simp [eraseFirst] at h
      exact List.mem_cons_of_mem _ h
    · simp [eraseFirst, hb] at h
      rcases h with h | h
      · simp [h]
      · exact List.mem_cons_of_mem _ (ih h)

theorem key_ne_of_countKey_zero (k : String) (en : String × Nat × Work)
    (l : List (String × Nat × Work)) (hc : countKey k l = 0) (hmem : en ∈ l) :
    en.1 ≠ k := by
  intro hk
  have := countKey_pos_of_mem k en l hmem hk
  omega

theorem getD_concat_length (l : List Bool) (b : Bool) :
    (l ++ [b]).getD l.length false = b := by
  induction l with
  | nil => simp
  | cons a t ih => simpa using ih

theorem contextForWork_ok (s : AsyncWorkers) (k : String) (wk : Work) (now : Nat)
    (st : workStatus) (hst : alookup k s.workStatuses = some (some st)) :
    ∃ s2 ci st2,
      contextForWork s k (some wk) now = Except.ok (s2, ci) ∧
      s2.name = s.name ∧ s2.inflight = s.inflight ∧
      s2.lastUndeliveredWork = s.lastUndeliveredWork ∧
      s2.workStatuses = aset k (some st2) s.workStatuses ∧
      st2.working = true ∧ st2.work = some wk ∧ st2.startedAt = now ∧
      st2.ctx = some ci ∧
      (st2.cancelFn = some ci ∨ (st2.cancelFn = st.cancelFn ∧ st.ctx = some ci)) ∧
      ctxIsCanceled s2.ctxCanceled ci = false := by
  cases hctx : st.ctx with
  | none =>
    let st2 : workStatus := { working := true, ctx := some s.ctxCanceled.length, cancelFn := some s.ctxCanceled.length, work := some wk, startedAt := now }
    let s2 : AsyncWorkers := { s with ctxCanceled := s.ctxCanceled ++ [false], workStatuses := aset k (some st2) s.workStatuses }
    refine ⟨s2, s.ctxCanceled.length, st2, ?_, rfl, rfl, rfl, rfl, rfl, rfl, rfl, rfl, Or.inl rfl, ?_⟩
    · simp only [contextForWork, hst, hctx]
    · simpa [s2, ctxIsCanceled] using getD_concat_length s.ctxCanceled false
  | some i =>
    by_cases hcan : ctxIsCanceled s.ctxCanceled i = true
    · let st2 : workStatus := { working := true, ctx := some s.ctxCanceled.length, cancelFn := some s.ctxCanceled.length, work := some wk, startedAt := now }
      let s2 : AsyncWorkers := { s with ctxCanceled := s.ctxCanceled ++ [false], workStatuses := aset k (some st2) s.workStatuses }
      refine ⟨s2, s.ctxCanceled.length, st2, ?_, rfl, rfl, rfl, rfl, rfl, rfl, rfl, rfl, Or.inl rfl, ?_⟩
      · simp only [contextForWork, hst, hctx, hcan, if_true]
      · simpa [s2, ctxIsCanceled] using getD_concat_length s.ctxCanceled false
    · let st2 : workStatus := { st with working := true, work := some wk, startedAt := now }
      let s2 : AsyncWorkers := { s with workStatuses := aset k (some st2) s.workStatuses }
      refine ⟨s2, i, st2, ?_, rfl, rfl, rfl, rfl, rfl, rfl, rfl, ?_, Or.inr ⟨rfl, ?_⟩, ?_⟩
      · simp only [contextForWork, hst, hctx, hcan, if_false, Bool.false_eq_true, ite_false]
        simp [s2, st2, hctx]
      · exact hctx
      · rfl
      · simpa [s2] using hcan

/-- The per-status part of the scheduler invariant: the cancel function is
allocated together with the context, and a working status carries both a
cancel function and a current work. -/
def statusInv (st : workStatus) : Prop :=
  (st.ctx.isSome = true → st.cancelFn.isSome = true) ∧
  (st.working = true → st.cancelFn.isSome = true ∧ st.work.isSome = true)

/-- The global scheduler invariant: at most one in-flight execution per key;
every in-flight key and every key with a queued replacement is marked
working; every stored status is internally consistent; the status table
has no duplicate keys. -/
structure Inv (s : AsyncWorkers) : Prop where
  flight_le_one : ∀ k, countKey k s.inflight ≤ 1
  flight_working : ∀ en, en ∈ s.inflight → workingAt s en.1 = true
  pending_working : ∀ k w, alookup k s.lastUndeliveredWork = some w → workingAt s k = true
  status_ok : ∀ k st, alookup k s.workStatuses = some (some st) → statusInv st
  keys_nodup : NodupKeys s.workStatuses

theorem inv_dispatch_core (sb : AsyncWorkers)
    (hb1 : ∀ k', countKey k' sb.inflight ≤ 1)
    (hb2 : ∀ en, en ∈ sb.inflight → workingAt sb en.1 = true)
    (hb3 : ∀ k' w', alookup k' sb.lastUndeliveredWork = some w' → workingAt sb k' = true)
    (hb4 : ∀ k' st', alookup k' sb.workStatuses = some (some st') → statusInv st')
    (hb5 : NodupKeys sb.workStatuses)
    (k : String) (wk : Work) (now : Nat)
    (hc0 : countKey k sb.inflight = 0)
    (st : workStatus) (hst : alookup k sb.workStatuses = some (some st)) :
    ∃ s2 ci, contextForWork sb k (some wk) now = Except.ok (s2, ci) ∧
      Inv { s2 with inflight := s2.inflight ++ [(k, ci, wk)] } ∧
      Inv { s2 with inflight := s2.inflight ++ [(k, ci, wk)], lastUndeliveredWork := adel k s2.lastUndeliveredWork } ∧
      ctxIsCanceled s2.ctxCanceled ci = false := by
  obtain ⟨s2, ci, st2, hcfw, hname, hinf, hpend, hws, hwork, hcw, hsa, hctx2, hcf2, hcanc⟩ :=
    contextForWork_ok sb k wk now st hst
  have hwa_self : workingAt s2 k = true := by
    simp [workingAt, hws, alookup_aset_self, hwork]
  have hwa_ne : ∀ k', k' ≠ k → workingAt s2 k' = workingAt sb k' := by
    intro k' hk'
    simp [workingAt, hws, alookup_aset_ne k k' (some st2) sb.workStatuses hk']
  have hflight1 : ∀ k', countKey k' (s2.inflight ++ [(k, ci, wk)]) ≤ 1 := by
    intro k'
    rw [countKey_append, hinf]
    by_cases hk' : k = k'
    · subst hk'
      simp [countKey, hc0]
    · have := hb1 k'
      simp [countKey, hk']
      omega
  have hflight2 : ∀ en, en ∈ s2.inflight ++ [(k, ci, wk)] → workingAt s2 en.1 = true := by
    intro en hen
    rw [hinf] at hen
    rcases List.mem_append.mp hen with hmem | hmem
    · have hne : en.1 ≠ k := key_ne_of_countKey_zero k en sb.inflight hc0 hmem
      rw [hwa_ne en.1 hne]
      exact hb2 en hmem
    · have : en = (k, ci, wk) := by simpa using hmem
      rw [this]
      exact hwa_self
  have hstatus : ∀ k' st', alookup k' s2.workStatuses = some (some st') → statusInv st' := by
    intro k' st' hlk'
    by_cases hk' : k' = k
    · rw [hk', hws, alookup_aset_self] at hlk'
      have hst2 : st2 = st' := by simpa using hlk'
      subst hst2
      have hcfSome : st2.cancelFn.isSome = true := by
        rcases hcf2 with hcf | ⟨hcf, hstctx⟩
        · simp [hcf]
        · rw [hcf]
          exact (hb4 k st hst).1 (by simp [hstctx])
      constructor
      · intro _
        exact hcfSome
      · intro _
        exact ⟨hcfSome, by simp [hcw]⟩
    · rw [hws, alookup_aset_ne k k' (some st2) sb.workStatuses hk'] at hlk'
      exact hb4 k' st' hlk'
  have hnodup : NodupKeys s2.workStatuses := by
    rw [hws]
    exact nodupKeys_aset k (some st2) sb.workStatuses hb5
  refine ⟨s2, ci, hcfw, ⟨hflight1, hflight2, ?_, hstatus, hnodup⟩,
    ⟨hflight1, hflight2, ?_, hstatus, hnodup⟩, hcanc⟩
  · intro k' w' hlk'
    have hlk2 : alookup k' sb.lastUndeliveredWork = some w' := by
      rw [← hpend]
      exact hlk'
    show workingAt s2 k' = true
    by_cases hk' : k' = k
    · subst hk'
      exact hwa_self
    · rw [hwa_ne k' hk']
      exact hb3 k' w' hlk2
  · intro k' w' hlk'
    have hlk2 : alookup k' (adel k sb.lastUndeliveredWork) = some w' := by
      rw [← hpend]
      exact hlk'
    show workingAt s2 k' = true
    by_cases hk' : k' = k
    · subst hk'
      rw [alookup_adel_self] at hlk2
      cases hlk2
    · rw [hwa_ne k' hk']
      rw [alookup_adel_ne k k' sb.lastUndeliveredWork hk'] at hlk2
      exact hb3 k' w' hlk2

theorem countKey_zero_of_forall (k : String) (l : List (String × Nat × Work))
    (h : ∀ en, en ∈ l → en.1 ≠ k) : countKey k l = 0 := by
  induction l with
  | nil => simp [countKey]
  | cons a t ih =>
    have ha : a.1 ≠ k := h a (List.mem_cons_self a t)
    simp [countKey, ha]
    exact ih (fun en hen => h en (List.mem_cons_of_mem a hen))

theorem inv_AddWork (s : AsyncWorkers) (hI : Inv s) (k : String) (w : Option Work)
    (now : Nat) (s' : AsyncWorkers) (e : Option String)
    (h : AddWork s k w now = AddResult.ret s' e) : Inv s' := by
  cases w with
  | none =>
    simp only [AddWork, validateWork] at h
    injection h with h1 h2
    rw [← h1]
    exact hI
  | some wk =>
    cases hfn : wk.Fn with
    | none =>
      simp only [AddWork, validateWork, hfn] at h
      injection h with h1 h2
      rw [← h1]
      exact hI
    | some fb =>
      have hv : validateWork (some wk) = none := by simp [validateWork, hfn]
      simp only [AddWork, hv] at h
      cases hlk : alookup k s.workStatuses with
      | none =>
        have hwaf : workingAt s k = false := by simp [workingAt, hlk]
        have hes : ensureStatus s k =
            ({ s with workStatuses := aset k (some zeroWorkStatus) s.workStatuses }, zeroWorkStatus) := by
          simp [ensureStatus, hlk]
        simp only [hes] at h
        rw [if_pos (show zeroWorkStatus.IsWorking = false from rfl)] at h
        have hc0 : countKey k s.inflight = 0 := by
          apply countKey_zero_of_forall
          intro en hen hk
          have := hI.flight_working en hen
          rw [hk, hwaf] at this
          cases this
        obtain ⟨s2, ci, hcfw, hInvA, hInvB, hcanc⟩ :=
          inv_dispatch_core { s with workStatuses := aset k (some zeroWorkStatus) s.workStatuses }
            (by intro k'; exact hI.flight_le_one k')
            (by
              intro en hen
              have hne : en.1 ≠ k := by
                intro hk
                have := hI.flight_working en hen
                rw [hk, hwaf] at this
                cases this
              have hw := hI.flight_working en hen
              simpa [workingAt, alookup_aset_ne k en.1 (some zeroWorkStatus) s.workStatuses hne]
                using hw)
            (by
              intro k' w' hlk'
              have hw := hI.pending_working k' w' hlk'
              have hne : k' ≠ k := by
                intro hk
                rw [hk, hwaf] at hw
                cases hw
              simpa [workingAt, alookup_aset_ne k k' (some zeroWorkStatus) s.workStatuses hne]
                using hw)
            (by
              intro k' st' hlk'
              by_cases hk' : k' = k
              · rw [hk', alookup_aset_self] at hlk'
                have : zeroWorkStatus = st' := by simpa using hlk'
                rw [← this]
                constructor
                · intro hc
                  simp [zeroWorkStatus] at hc
                · intro hc
                  simp [zeroWorkStatus] at hc
              · rw [alookup_aset_ne k k' (some zeroWorkStatus) s.workStatuses hk'] at hlk'
                exact hI.status_ok k' st' hlk')
            (nodupKeys_aset k (some zeroWorkStatus) s.workStatuses hI.keys_nodup)
            k wk now hc0 zeroWorkStatus (alookup_aset_self k (some zeroWorkStatus) s.workStatuses)
        rw [hcfw] at h
        injection h with h1 h2
        rw [← h1]
        exact hInvA
      | some ost =>
        cases ost with
        | none =>
          have hwaf : workingAt s k = false := by simp [workingAt, hlk]
          have hes : ensureStatus s k =
              ({ s with workStatuses := aset k (some zeroWorkStatus) s.workStatuses }, zeroWorkStatus) := by
            simp [ensureStatus, hlk]
          simp only [hes] at h
          rw [if_pos (show zeroWorkStatus.IsWorking = false from rfl)] at h
          have hc0 : countKey k s.inflight = 0 := by
            apply countKey_zero_of_forall
            intro en hen hk
            have := hI.flight_working en hen
            rw [hk, hwaf] at this
            cases this
          obtain ⟨s2, ci, hcfw, hInvA, hInvB, hcanc⟩ :=
            inv_dispatch_core { s with workStatuses := aset k (some zeroWorkStatus) s.workStatuses }
              (by intro k'; exact hI.flight_le_one k')
              (by
                intro en hen
                have hne : en.1 ≠ k := by
                  intro hk
                  have := hI.flight_working en hen
                  rw [hk, hwaf] at this
                  cases this
                have hw := hI.flight_working en hen
                simpa [workingAt, alookup_aset_ne k en.1 (some zeroWorkStatus) s.workStatuses hne]
                  using hw)
              (by
                intro k' w' hlk'
                have hw := hI.pending_working k' w' hlk'
                have hne : k' ≠ k := by
                  intro hk
                  rw [hk, hwaf] at hw
                  cases hw
                simpa [workingAt, alookup_aset_ne k k' (some zeroWorkStatus) s.workStatuses hne]
                  using hw)
              (by
                intro k' st' hlk'
                by_cases hk' : k' = k
                · rw [hk', alookup_aset_self] at hlk'
                  have : zeroWorkStatus = st' := by simpa using hlk'
                  rw [← this]
                  constructor
                  · intro hc
                    simp [zeroWorkStatus] at hc
                  · intro hc
                    simp [zeroWorkStatus] at hc
                · rw [alookup_aset_ne k k' (some zeroWorkStatus) s.workStatuses hk'] at hlk'
                  exact hI.status_ok k' st' hlk')
              (nodupKeys_aset k (some zeroWorkStatus) s.workStatuses hI.keys_nodup)
              k wk now hc0 zeroWorkStatus (alookup_aset_self k (some zeroWorkStatus) s.workStatuses)
          rw [hcfw] at h
          injection h with h1 h2
          rw [← h1]
          exact hInvA
        | some st =>
          have hes : ensureStatus s k = (s, st) := by simp [ensureStatus, hlk]
          simp only [hes] at h
          cases hw : st.working with
          | false =>
            rw [if_pos (show workStatus.IsWorking st = false from hw)] at h
            have hc0 : countKey k s.inflight = 0 := by
              apply countKey_zero_of_forall
              intro en hen hk
              have hwk := hI.flight_working en hen
              rw [hk] at hwk
              simp [workingAt, hlk, hw] at hwk
            obtain ⟨s2, ci, hcfw, hInvA, hInvB, hcanc⟩ :=
              inv_dispatch_core s hI.flight_le_one hI.flight_working hI.pending_working
                hI.status_ok hI.keys_nodup k wk now hc0 st hlk
            rw [hcfw] at h
            injection h with h1 h2
            rw [← h1]
            exact hInvA
          | true =>
            rw [if_neg (by simp [workStatus.IsWorking, hw])] at h
            have hsi := hI.status_ok k st hlk
            obtain ⟨ci, hcf⟩ := Option.isSome_iff_exists.mp (hsi.2 hw).1
            obtain ⟨cwk, hcwk⟩ := Option.isSome_iff_exists.mp (hsi.2 hw).2
            rw [hcf, hcwk] at h
            injection h with h1 h2
            rw [← h1]
            refine ⟨hI.flight_le_one, ?_, ?_, hI.status_ok, hI.keys_nodup⟩
            · intro en hen
              exact hI.flight_working en hen
            · intro k' w' hlk'
              by_cases hk' : k' = k
              · rw [hk']
                show workingAt s k = true
                simp [workingAt, hlk, hw]
              · have hlk2 : alookup k' s.lastUndeliveredWork = some w' := by
                  rw [← alookup_aset_ne k k' wk s.lastUndeliveredWork hk']
                  exact hlk'
                exact hI.pending_working k' w' hlk2

theorem inv_completeWork (s : AsyncWorkers) (hI : Inv s) (k : String) (cw : Work)
    (e : Option String) (now : Nat) (hc0 : countKey k s.inflight = 0)
    (s' : AsyncWorkers) (h : completeWork s k cw e now = Except.ok s') : Inv s' := by
  cases hlp : alookup k s.lastUndeliveredWork with
  | some pw =>
    simp only [completeWork, hlp] at h
    have hwk : workingAt s k = true := hI.pending_working k pw hlp
    cases hlk : alookup k s.workStatuses with
    | none => simp [workingAt, hlk] at hwk
    | some ost =>
      cases ost with
      | none => simp [workingAt, hlk] at hwk
      | some st =>
        obtain ⟨s2, ci, hcfw, hInvA, hInvB, hcanc⟩ :=
          inv_dispatch_core s hI.flight_le_one hI.flight_working hI.pending_working
            hI.status_ok hI.keys_nodup k pw now hc0 st hlk
        rw [hcfw] at h
        injection h with h1
        rw [← h1]
        exact hInvB
  | none =>
    simp only [completeWork, hlp, resetWorkStatus] at h
    cases hlk : alookup k s.workStatuses with
    | none =>
      rw [hlk] at h
      cases h
    | some ost =>
      cases ost with
      | none =>
        rw [hlk] at h
        cases h
      | some st =>
        rw [hlk] at h
        injection h with h1
        rw [← h1]
        refine ⟨hI.flight_le_one, ?_, ?_, ?_, nodupKeys_aset k _ s.workStatuses hI.keys_nodup⟩
        · intro en hen
          have hne : en.1 ≠ k := key_ne_of_countKey_zero k en s.inflight hc0 hen
          have hw := hI.flight_working en hen
          show workingAt _ en.1 = true
          simpa [workingAt, alookup_aset_ne k en.1 _ s.workStatuses hne] using hw
        · intro k' w' hlk'
          by_cases hk' : k' = k
          · rw [hk'] at hlk'
            rw [hlp] at hlk'
            cases hlk'
          · have hw := hI.pending_working k' w' hlk'
            show workingAt _ k' = true
            simpa [workingAt, alookup_aset_ne k k' _ s.workStatuses hk'] using hw
        · intro k' st' hlk'
          by_cases hk' : k' = k
          · rw [hk', alookup_aset_self] at hlk'
            have hst' : { st with working := false, work := none, startedAt := 0 } = st' := by
              simpa using hlk'
            rw [← hst']
            have hsi := hI.status_ok k st hlk
            constructor
            · intro hc
              exact hsi.1 hc
            · intro hc
              simp at hc
          · rw [alookup_aset_ne k k' _ s.workStatuses hk'] at hlk'
            exact hI.status_ok k' st' hlk'

theorem inv_cleanup (s : AsyncWorkers) (hI : Inv s) : Inv (cleanupWorkStatus s) := by
  have hlk : ∀ k, workingAt s k = true →
      alookup k (cleanupWorkStatus s).workStatuses = alookup k s.workStatuses := by
    intro k hw
    show alookup k (s.workStatuses.filter keepStatus) = _
    rw [alookup_filter keepStatus k s.workStatuses hI.keys_nodup]
    cases hl : alookup k s.workStatuses with
    | none => simp
    | some ost =>
      cases ost with
      | none => simp [workingAt, hl] at hw
      | some st =>
        have hst : st.working = true := by simpa [workingAt, hl] using hw
        simp [keepStatus, hst]
  have hwa : ∀ k, workingAt s k = true → workingAt (cleanupWorkStatus s) k = true := by
    intro k hw
    have heq := hlk k hw
    simp only [workingAt] at hw ⊢
    rw [heq]
    exact hw
  refine ⟨hI.flight_le_one, ?_, ?_, ?_, nodupKeys_filter keepStatus s.workStatuses hI.keys_nodup⟩
  · intro en hen
    exact hwa en.1 (hI.flight_working en hen)
  · intro k' w' hlk'
    exact hwa k' (hI.pending_working k' w' hlk')
  · intro k' st' hlk'
    rw [show (cleanupWorkStatus s).workStatuses = s.workStatuses.filter keepStatus from rfl,
      alookup_filter keepStatus k' s.workStatuses hI.keys_nodup] at hlk'
    cases hl : alookup k' s.workStatuses with
    | none =>
      rw [hl] at hlk'
      cases hlk'
    | some ost =>
      rw [hl] at hlk'
      by_cases hk : keepStatus (k', ost)
      · simp [hk] at hlk'
        rw [hlk'] at hl
        exact hI.status_ok k' st' hl
      · simp [hk] at hlk'

theorem inv_step (s s' : AsyncWorkers) (hI : Inv s) (hstep : Step s s') : Inv s' := by
  cases hstep with
  | add k w now e h => exact inv_AddWork s hI k w now s' e h
  | finish en now hmem h =>
    have hc' : countKey en.1 (eraseFirst en s.inflight) = 0 := by
      have h1 := countKey_eraseFirst_of_mem en.1 en s.inflight hmem
      have h2 := hI.flight_le_one en.1
      simp at h1
      omega
    have hIrem : Inv { s with inflight := eraseFirst en s.inflight } := by
      refine ⟨?_, ?_, hI.pending_working, hI.status_ok, hI.keys_nodup⟩
      · intro k'
        show countKey k' (eraseFirst en s.inflight) ≤ 1
        have h1 := countKey_eraseFirst_of_mem k' en s.inflight hmem
        have h2 := hI.flight_le_one k'
        by_cases hk : en.1 = k'
        · simp only [if_pos hk] at h1
          omega
        · simp only [if_neg hk] at h1
          omega
      · intro en' hen'
        exact hI.flight_working en' (mem_of_mem_eraseFirst en en' s.inflight hen')
    unfold handleWork at h
    cases hfr : fnResult en.2.2 with
    | none =>
      rw [hfr] at h
      injection h with h1
      rw [← h1]
      exact hIrem
    | some e2 =>
      rw [hfr] at h
      exact inv_completeWork { s with inflight := eraseFirst en s.inflight } hIrem
        en.1 en.2.2 e2 now hc' s' h
  | sweep => exact inv_cleanup s hI

theorem reachable_inv (s : AsyncWorkers) (h : Reachable s) : Inv s := by
  induction h with
  | init name =>
    refine ⟨?_, ?_, ?_, ?_, ?_⟩
    · intro k
      simp [NewAsyncWorkers, countKey]
    · intro en hen
      simp [NewAsyncWorkers] at hen
    · intro k w hlk
      simp [NewAsyncWorkers, alookup] at hlk
    · intro k st hlk
      simp [NewAsyncWorkers, alookup] at hlk
    · simp [NewAsyncWorkers, NodupKeys]
  | step hr hstep ih => exact inv_step _ _ ih hstep

/-- A sample valid work used by concrete witnesses. -/
def wA : Work := { Fn := some FnBehavior.ok, Params := [1], DeliveredAt := 1 }

/-- A second sample valid work used by concrete witnesses. -/
def wB : Work := { Fn := some FnBehavior.ok, Params := [2], DeliveredAt := 2 }

/-- The status of a key working on `wA` under context 0. -/
def stA : workStatus :=
  { working := true, ctx := some 0, cancelFn := some 0, work := some wA, startedAt := 3 }

/-- The scheduler state after `AddWork "pod" wA` on a fresh scheduler: the
key is working on `wA` with a fresh context and one dispatched execution. -/
def demo1 : AsyncWorkers :=
  { name := "aw",
    workStatuses := [("pod", some stA)],
    lastUndeliveredWork := [],
    ctxCanceled := [false],
    inflight := [("pod", 0, wA)] }

/-- The state after a second `AddWork "pod" wB` while `wA` is in flight:
`wB` queued as the pending replacement and context 0 canceled. -/
def demo2 : AsyncWorkers :=
  { name := "aw",
    workStatuses := [("pod", some stA)],
    lastUndeliveredWork := [("pod", wB)],
    ctxCanceled := [true],
    inflight := [("pod", 0, wA)] }

theorem demo1_reachable : Reachable demo1 :=
  Reachable.step (Reachable.init "aw") (Step.add "pod" (some wA) 3 none (by rfl))

theorem demo2_reachable : Reachable demo2 :=
  Reachable.step demo1_reachable (Step.add "pod" (some wB) 5 none (by rfl))

/-- C2: single-flight per key — in every reachable state of the scheduler's
step relation, at most one execution of any key's work is in flight; in
the step relation a new execution is launched only by the AddWork branch
that requires the key not working, or by completeWork at the instant a
previous execution finishes. -/
theorem C2_single_flight (s : AsyncWorkers) (h : Reachable s) (k : String) :
    countInflight s k ≤ 1 :=
  (reachable_inv s h).flight_le_one k

/-- Witness for C2 at a concrete reachable state with one in-flight
execution. -/
theorem C2_single_flight_witness : countInflight demo2 "pod" ≤ 1 :=
  C2_single_flight demo2 demo2_reachable "pod"

/-- C10: in every reachable state, whenever the pending-replacement table
holds a Work for a key, that key's status entry exists and is working, so
one reaper pass leaves the key's status entry unchanged. -/
theorem C10_pending_implies_working (s : AsyncWorkers) (h : Reachable s) (k : String)
    (w : Work) (hp : alookup k s.lastUndeliveredWork = some w) :
    workingAt s k = true ∧
    alookup k (cleanupWorkStatus s).workStatuses = alookup k s.workStatuses := by
  have hI := reachable_inv s h
  have hw := hI.pending_working k w hp
  refine ⟨hw, ?_⟩
  show alookup k (s.workStatuses.filter keepStatus) = _
  rw [alookup_filter keepStatus k s.workStatuses hI.keys_nodup]
  cases hl : alookup k s.workStatuses with
  | none => simp
  | some ost =>
    cases ost with
    | none => simp [workingAt, hl] at hw
    | some st =>
      have hst : st.working = true := by simpa [workingAt, hl] using hw
      simp [keepStatus, hst]

/-- Witness for C10 at a concrete reachable state with a queued
replacement. -/
theorem C10_pending_implies_working_witness :
    workingAt demo2 "pod" = true ∧
    alookup "pod" (cleanupWorkStatus demo2).workStatuses = alookup "pod" demo2.workStatuses :=
  C10_pending_implies_working demo2 demo2_reachable "pod" wB (by rfl)

theorem getD_set_self (l : List Bool) (i : Nat) (b : Bool) (h : i < l.length) :
    (l.set i b).getD i false = b := by
  induction l generalizing i with
  | nil => simp at h
  | cons a t ih =>
    cases i with
    | zero => simp
    | succ n =>
      simp at h
      simpa using ih n h

/-- C3: AddWork on a valid work while the key is working overwrites the
key's pending-replacement slot with the new work (discarding any
previously queued replacement), invokes the current status's cancel
function so the running execution's context is canceled before AddWork
returns, launches no new execution and changes no status entry, and
returns success. -/
theorem C3_AddWork_busy_queue_and_cancel (s : AsyncWorkers) (k : String) (w : Work)
    (now : Nat) (st : workStatus) (fb : FnBehavior) (ci : Nat) (cwk : Work)
    (hfn : w.Fn = some fb)
    (hst : alookup k s.workStatuses = some (some st))
    (hw : st.working = true)
    (hcf : st.cancelFn = some ci)
    (hcw : st.work = some cwk)
    (hlt : ci < s.ctxCanceled.length) :
    AddWork s k (some w) now =
      AddResult.ret { s with lastUndeliveredWork := aset k w s.lastUndeliveredWork, ctxCanceled := s.ctxCanceled.set ci true } none ∧
    alookup k (aset k w s.lastUndeliveredWork) = some w ∧
    ctxIsCanceled (s.ctxCanceled.set ci true) ci = true := by
  have hv : validateWork (some w) = none := by simp [validateWork, hfn]
  have hes : ensureStatus s k = (s, st) := by simp [ensureStatus, hst]
  refine ⟨?_, alookup_aset_self k w s.lastUndeliveredWork, ?_⟩
  · simp only [AddWork, hv, hes, hcf, hcw]
    rw [if_neg (by simp [workStatus.IsWorking, hw])]
  · simp only [ctxIsCanceled]
    exact getD_set_self s.ctxCanceled ci true hlt

/-- Witness for C3: queuing a second work for the busy key of `demo1`
yields exactly `demo2` and cancels context 0. -/
theorem C3_AddWork_busy_queue_and_cancel_witness :
    AddWork demo1 "pod" (some wB) 5 =
      AddResult.ret { demo1 with lastUndeliveredWork := aset "pod" wB demo1.lastUndeliveredWork, ctxCanceled := demo1.ctxCanceled.set 0 true } none ∧
    alookup "pod" (aset "pod" wB demo1.lastUndeliveredWork) = some wB ∧
    ctxIsCanceled (demo1.ctxCanceled.set 0 true) 0 = true :=
  C3_AddWork_busy_queue_and_cancel demo1 "pod" wB 5 stA FnBehavior.ok 0 wA rfl rfl rfl
    rfl rfl (by simp [demo1])

/-- C7: AddWork on a valid work while the key is idle (or has no status
entry) creates the status entry if absent, marks it working on the new
work with `startedAt` stamped, launches a dispatched execution carrying
the work immediately, leaves the pending-replacement table unchanged, and
returns success without waiting for the execution to finish. -/
theorem C7_AddWork_idle_dispatch (s : AsyncWorkers) (k : String) (w : Work) (now : Nat)
    (fb : FnBehavior) (hfn : w.Fn = some fb) (hidle : workingAt s k = false) :
    ∃ s' ci st2,
      AddWork s k (some w) now = AddResult.ret s' none ∧
      alookup k s'.workStatuses = some (some st2) ∧
      st2.working = true ∧ st2.work = some w ∧ st2.startedAt = now ∧
      s'.inflight = s.inflight ++ [(k, ci, w)] ∧
      s'.lastUndeliveredWork = s.lastUndeliveredWork := by
  have hv : validateWork (some w) = none := by simp [validateWork, hfn]
  cases hlk : alookup k s.workStatuses with
  | none =>
    have hes : ensureStatus s k =
        ({ s with workStatuses := aset k (some zeroWorkStatus) s.workStatuses }, zeroWorkStatus) := by
      simp [ensureStatus, hlk]
    obtain ⟨s2, ci, st2, hcfw, hname, hinf, hpend, hws, hwork, hcw, hsa, hctx2, hcf2, hcanc⟩ :=
      contextForWork_ok { s with workStatuses := aset k (some zeroWorkStatus) s.workStatuses }
        k w now zeroWorkStatus (alookup_aset_self k (some zeroWorkStatus) s.workStatuses)
    refine ⟨{ s2 with inflight := s2.inflight ++ [(k, ci, w)] }, ci, st2, ?_, ?_, hwork, hcw, hsa, ?_, ?_⟩
    · simp only [AddWork, hv, hes]
      rw [if_pos (show zeroWorkStatus.IsWorking = false from rfl)]
      rw [hcfw]
    · show alookup k s2.workStatuses = some (some st2)
      rw [hws]
      exact alookup_aset_self k (some st2) _
    · show s2.inflight ++ [(k, ci, w)] = s.inflight ++ [(k, ci, w)]
      rw [hinf]
    · show s2.lastUndeliveredWork = s.lastUndeliveredWork
      rw [hpend]
  | some ost =>
    cases ost with
    | none =>
      have hes : ensureStatus s k =
          ({ s with workStatuses := aset k (some zeroWorkStatus) s.workStatuses }, zeroWorkStatus) := by
        simp [ensureStatus, hlk]
      obtain ⟨s2, ci, st2, hcfw, hname, hinf, hpend, hws, hwork, hcw, hsa, hctx2, hcf2, hcanc⟩ :=
        contextForWork_ok { s with workStatuses := aset k (some zeroWorkStatus) s.workStatuses }
          k w now zeroWorkStatus (alookup_aset_self k (some zeroWorkStatus) s.workStatuses)
      refine ⟨{ s2 with inflight := s2.inflight ++ [(k, ci, w)] }, ci, st2, ?_, ?_, hwork, hcw, hsa, ?_, ?_⟩
      · simp only [AddWork, hv, hes]
        rw [if_pos (show zeroWorkStatus.IsWorking = false from rfl)]
        rw [hcfw]
      · show alookup k s2.workStatuses = some (some st2)
        rw [hws]
        exact alookup_aset_self k (some st2) _
      · show s2.inflight ++ [(k, ci, w)] = s.inflight ++ [(k, ci, w)]
        rw [hinf]
      · show s2.lastUndeliveredWork = s.lastUndeliveredWork
        rw [hpend]
    | some st =>
      have hwf : st.working = false := by simpa [workingAt, hlk] using hidle
      have hes : ensureStatus s k = (s, st) := by simp [ensureStatus, hlk]
      obtain ⟨s2, ci, st2, hcfw, hname, hinf, hpend, hws, hwork, hcw, hsa, hctx2, hcf2, hcanc⟩ :=
        contextForWork_ok s k w now st hlk
      refine ⟨{ s2 with inflight := s2.inflight ++ [(k, ci, w)] }, ci, st2, ?_, ?_, hwork, hcw, hsa, ?_, ?_⟩
      · simp only [AddWork, hv, hes]
        rw [if_pos (show workStatus.IsWorking st = false from hwf)]
        rw [hcfw]
      · show alookup k s2.workStatuses = some (some st2)
        rw [hws]
        exact alookup_aset_self k (some st2) _
      · show s2.inflight ++ [(k, ci, w)] = s.inflight ++ [(k, ci, w)]
        rw [hinf]
      · show s2.lastUndeliveredWork = s.lastUndeliveredWork
        rw [hpend]

/-- Witness for C7: submitting `wA` for a key of a fresh scheduler
dispatches it immediately. -/
theorem C7_AddWork_idle_dispatch_witness :
    ∃ s' ci st2,
      AddWork (NewAsyncWorkers "aw") "pod" (some wA) 3 = AddResult.ret s' none ∧
      alookup "pod" s'.workStatuses = some (some st2) ∧
      st2.working = true ∧ st2.work = some wA ∧ st2.startedAt = 3 ∧
      s'.inflight = (NewAsyncWorkers "aw").inflight ++ [("pod", ci, wA)] ∧
      s'.lastUndeliveredWork = (NewAsyncWorkers "aw").lastUndeliveredWork :=
  C7_AddWork_idle_dispatch (NewAsyncWorkers "aw") "pod" wA 3 FnBehavior.ok rfl rfl

/-- C4: the state transition of completeWork ignores the reported error;
if the key has a queued replacement it is removed from the pending table
and immediately dispatched as the working current work with a fresh
start time, with no intervening idle state; otherwise the status entry is
reset to idle with working false, work cleared and startedAt zeroed while
the context/cancel pair is retained unchanged. -/
theorem C4_completeWork_transition (s : AsyncWorkers) (k : String) (cw : Work)
    (e1 e2 : Option String) (now : Nat) :
    completeWork s k cw e1 now = completeWork s k cw e2 now ∧
    (∀ pw st, alookup k s.lastUndeliveredWork = some pw →
      alookup k s.workStatuses = some (some st) →
      ∃ s' ci st2, completeWork s k cw e1 now = Except.ok s' ∧
        alookup k s'.lastUndeliveredWork = none ∧
        alookup k s'.workStatuses = some (some st2) ∧
        st2.working = true ∧ st2.work = some pw ∧ st2.startedAt = now ∧
        s'.inflight = s.inflight ++ [(k, ci, pw)]) ∧
    (∀ st, alookup k s.lastUndeliveredWork = none →
      alookup k s.workStatuses = some (some st) →
      completeWork s k cw e1 now =
        Except.ok { s with workStatuses := aset k (some { st with working := false, work := none, startedAt := 0 }) s.workStatuses }) := by
  refine ⟨rfl, ?_, ?_⟩
  · intro pw st hp hst
    obtain ⟨s2, ci, st2, hcfw, hname, hinf, hpend, hws, hwork, hcw2, hsa, hctx2, hcf2, hcanc⟩ :=
      contextForWork_ok s k pw now st hst
    refine ⟨{ s2 with inflight := s2.inflight ++ [(k, ci, pw)], lastUndeliveredWork := adel k s2.lastUndeliveredWork }, ci, st2, ?_, ?_, ?_, hwork, hcw2, hsa, ?_⟩
    · simp only [completeWork, hp]
      rw [hcfw]
    · show alookup k (adel k s2.lastUndeliveredWork) = none
      exact alookup_adel_self k _
    · show alookup k s2.workStatuses = some (some st2)
      rw [hws]
      exact alookup_aset_self k (some st2) _
    · show s2.inflight ++ [(k, ci, pw)] = s.inflight ++ [(k, ci, pw)]
      rw [hinf]
  · intro st hnp hst
    simp only [completeWork, hnp, resetWorkStatus, hst]

/-- Witness for C4: completing `wA` at `demo2` is independent of the
reported error and dispatches the queued `wB` immediately. -/
theorem C4_completeWork_transition_witness :
    completeWork demo2 "pod" wA none 9 = completeWork demo2 "pod" wA (some "boom") 9 ∧
    ∃ s' ci st2, completeWork demo2 "pod" wA none 9 = Except.ok s' ∧
      alookup "pod" s'.lastUndeliveredWork = none ∧
      alookup "pod" s'.workStatuses = some (some st2) ∧
      st2.working = true ∧ st2.work = some wB ∧ st2.startedAt = 9 ∧
      s'.inflight = demo2.inflight ++ [("pod", ci, wB)] := by
  have h := C4_completeWork_transition demo2 "pod" wA none (some "boom") 9
  exact ⟨h.1, h.2.1 wB stA rfl rfl⟩

/-- C5: contextForWork allocates a fresh cancellable context exactly when
the key has no context yet or the existing context is already canceled,
and otherwise returns the existing context object with the context heap
unchanged; the context it returns is never canceled, so in particular the
replacement dispatched by completeWork begins executing on a non-canceled
context. -/
theorem C5_contextForWork_fresh_iff (s : AsyncWorkers) (k : String) (w : Work) (now : Nat)
    (st : workStatus) (hst : alookup k s.workStatuses = some (some st)) :
    (∃ s2 ci, contextForWork s k (some w) now = Except.ok (s2, ci) ∧
      ctxIsCanceled s2.ctxCanceled ci = false ∧
      ((st.ctx = none ∨ (∃ i, st.ctx = some i ∧ ctxIsCanceled s.ctxCanceled i = true)) →
        ci = s.ctxCanceled.length ∧ s2.ctxCanceled = s.ctxCanceled ++ [false]) ∧
      (∀ i, st.ctx = some i → ctxIsCanceled s.ctxCanceled i = false →
        ci = i ∧ s2.ctxCanceled = s.ctxCanceled)) ∧
    (∀ cw e pw, alookup k s.lastUndeliveredWork = some pw →
      ∃ s' ci, completeWork s k cw e now = Except.ok s' ∧
        s'.inflight = s.inflight ++ [(k, ci, pw)] ∧
        ctxIsCanceled s'.ctxCanceled ci = false) := by
  constructor
  · cases hctx : st.ctx with
    | none =>
      let st2 : workStatus := { working := true, ctx := some s.ctxCanceled.length, cancelFn := some s.ctxCanceled.length, work := some w, startedAt := now }
      let s2 : AsyncWorkers := { s with ctxCanceled := s.ctxCanceled ++ [false], workStatuses := aset k (some st2) s.workStatuses }
      refine ⟨s2, s.ctxCanceled.length, ?_, ?_, fun _ => ⟨rfl, rfl⟩, ?_⟩
      · simp only [contextForWork, hst, hctx]
      · simpa [s2, ctxIsCanceled] using getD_concat_length s.ctxCanceled false
      · intro i hi
        cases hi
    | some i =>
      by_cases hcan : ctxIsCanceled s.ctxCanceled i = true
      · let st2 : workStatus := { working := true, ctx := some s.ctxCanceled.length, cancelFn := some s.ctxCanceled.length, work := some w, startedAt := now }
        let s2 : AsyncWorkers := { s with ctxCanceled := s.ctxCanceled ++ [false], workStatuses := aset k (some st2) s.workStatuses }
        refine ⟨s2, s.ctxCanceled.length, ?_, ?_, fun _ => ⟨rfl, rfl⟩, ?_⟩
        · simp only [contextForWork, hst, hctx, hcan, if_true]
        · simpa [s2, ctxIsCanceled] using getD_concat_length s.ctxCanceled false
        · intro i2 hi2 hfalse
          injection hi2 with hii
          rw [← hii, hcan] at hfalse
          cases hfalse
      · let st2 : workStatus := { st with working := true, work := some w, startedAt := now }
        let s2 : AsyncWorkers := { s with workStatuses := aset k (some st2) s.workStatuses }
        refine ⟨s2, i, ?_, ?_, ?_, ?_⟩
        · simp only [contextForWork, hst, hctx, hcan, if_false, Bool.false_eq_true, ite_false]
          simp [s2, st2, hctx]
        · simpa [s2] using hcan
        · rintro (heq | ⟨i2, hi2, hc2⟩)
          · cases heq
          · injection hi2 with hii
            rw [← hii] at hc2
            exact absurd hc2 hcan
        · intro i2 hi2 hfalse
          injection hi2 with hii
          exact ⟨hii, rfl⟩
  · intro cw e pw hp
    obtain ⟨s2, ci, st2, hcfw, hname, hinf, hpend, hws, hwork, hcw2, hsa, hctx2, hcf2, hcanc⟩ :=
      contextForWork_ok s k pw now st hst
    refine ⟨{ s2 with inflight := s2.inflight ++ [(k, ci, pw)], lastUndeliveredWork := adel k s2.lastUndeliveredWork }, ci, ?_, ?_, ?_⟩
    · simp only [completeWork, hp]
      rw [hcfw]
    · show s2.inflight ++ [(k, ci, pw)] = s.inflight ++ [(k, ci, pw)]
      rw [hinf]
    · show ctxIsCanceled s2.ctxCanceled ci = false
      exact hcanc

/-- Witness for C5 at `demo2`, whose context 0 is canceled: a fresh
context is allocated and the queued replacement starts non-canceled. -/
theorem C5_contextForWork_fresh_iff_witness :
    ∃ s2 ci, contextForWork demo2 "pod" (some wB) 9 = Except.ok (s2, ci) ∧
      ctxIsCanceled s2.ctxCanceled ci = false ∧
      ci = demo2.ctxCanceled.length ∧ s2.ctxCanceled = demo2.ctxCanceled ++ [false] := by
  obtain ⟨s2, ci, h1, h2, h3, h4⟩ :=
    (C5_contextForWork_fresh_iff demo2 "pod" wB 9 stA rfl).1
  exact ⟨s2, ci, h1, h2, h3 (Or.inr ⟨0, rfl, rfl⟩)⟩

/-- C6: AddWork on a work that fails validation returns a validation error
synchronously with the scheduler state unchanged — no status entry, no
pending entry, no dispatched execution and no cancellation — and
validation fails exactly when the work is nil or its executable function
is nil. -/
theorem C6_AddWork_invalid_no_mutation (s : AsyncWorkers) (k : String) (w : Option Work)
    (now : Nat) (hv : (validateWork w).isSome = true) :
    (∃ m, AddWork s k w now = AddResult.ret s (some m)) ∧
    ((validateWork w).isSome = true ↔ w = none ∨ ∃ wk, w = some wk ∧ wk.Fn = none) := by
  constructor
  · cases w with
    | none =>
      exact ⟨"validateWork for: " ++ k ++ " failed with error: " ++ "nil work", rfl⟩
    | some wk =>
      cases hfn : wk.Fn with
      | none =>
        refine ⟨"validateWork for: " ++ k ++ " failed with error: " ++ "nil work fn", ?_⟩
        simp [AddWork, validateWork, hfn]
      | some fb => simp [validateWork, hfn] at hv
  · constructor
    · intro hv2
      cases w with
      | none => exact Or.inl rfl
      | some wk =>
        cases hfn : wk.Fn with
        | none => exact Or.inr ⟨wk, rfl, hfn⟩
        | some fb => simp [validateWork, hfn] at hv2
    · rintro (rfl | ⟨wk, rfl, hfn⟩)
      · simp [validateWork]
      · simp [validateWork, hfn]

/-- Witness for C6: a nil work is rejected with `demo1` untouched. -/
theorem C6_AddWork_invalid_no_mutation_witness :
    (∃ m, AddWork demo1 "pod" none 7 = AddResult.ret demo1 (some m)) ∧
    ((validateWork none).isSome = true ↔ (none : Option Work) = none ∨ ∃ wk, (none : Option Work) = some wk ∧ wk.Fn = none) :=
  C6_AddWork_invalid_no_mutation demo1 "pod" none 7 rfl

/-- C8: one reaper pass deletes exactly the status-table entries whose
status is nil or whose working flag is false — an entry survives the pass
iff it was present with a working status — and the pass touches neither
the pending table nor the in-flight executions. -/
theorem C8_cleanup_exact (s : AsyncWorkers) :
    (∀ k ost, (k, ost) ∈ (cleanupWorkStatus s).workStatuses ↔
      ((k, ost) ∈ s.workStatuses ∧ ∃ st, ost = some st ∧ st.working = true)) ∧
    (cleanupWorkStatus s).lastUndeliveredWork = s.lastUndeliveredWork ∧
    (cleanupWorkStatus s).inflight = s.inflight := by
  refine ⟨?_, rfl, rfl⟩
  intro k ost
  show (k, ost) ∈ s.workStatuses.filter keepStatus ↔ _
  rw [List.mem_filter]
  constructor
  · rintro ⟨hmem, hkeep⟩
    refine ⟨hmem, ?_⟩
    cases ost with
    | none => simp [keepStatus] at hkeep
    | some st => exact ⟨st, rfl, by simpa [keepStatus] using hkeep⟩
  · rintro ⟨hmem, st, rfl, hwst⟩
    exact ⟨hmem, by simp [keepStatus, hwst]⟩

/-- Witness for C8: the working entry of `demo2` survives one reaper
pass. -/
theorem C8_cleanup_exact_witness :
    ("pod", some stA) ∈ (cleanupWorkStatus demo2).workStatuses :=
  ((C8_cleanup_exact demo2).1 "pod" (some stA)).mpr
    ⟨by simp [demo2], stA, rfl, rfl⟩

/-- A corrupted working status with a nil cancel function, used to witness
the fatal branch of AddWork. -/
def stBad : workStatus :=
  { working := true, ctx := none, cancelFn := none, work := none, startedAt := 0 }

/-- A scheduler whose only status entry is the corrupted `stBad`. -/
def sBad : AsyncWorkers :=
  { name := "aw", workStatuses := [("pod", some stBad)], lastUndeliveredWork := [],
    ctxCanceled := [], inflight := [] }

/-- C9: if a working status has a nil cancel function, or a non-nil cancel
function but a nil current work, AddWork on that key aborts fatally
rather than returning; and under the invariant that every working status
carries a cancel function and a current work, no AddWork call returns
the fatal outcome — every call returns normally. -/
theorem C9_fatal_invariant (s : AsyncWorkers) (k : String) (w : Work) (now : Nat)
    (st : workStatus) (fb : FnBehavior) (hfn : w.Fn = some fb)
    (hst : alookup k s.workStatuses = some (some st)) (hw : st.working = true) :
    (st.cancelFn = none → ∃ m, AddWork s k (some w) now = AddResult.fatal m) ∧
    (∀ ci, st.cancelFn = some ci → st.work = none →
      ∃ m, AddWork s k (some w) now = AddResult.fatal m) ∧
    ((∀ k' st', alookup k' s.workStatuses = some (some st') → st'.working = true →
        st'.cancelFn.isSome = true ∧ st'.work.isSome = true) →
      ∀ k2 w2 now2, ∃ s' e, AddWork s k2 w2 now2 = AddResult.ret s' e) := by
  have hv : validateWork (some w) = none := by simp [validateWork, hfn]
  have hes : ensureStatus s k = (s, st) := by simp [ensureStatus, hst]
  refine ⟨?_, ?_, ?_⟩
  · intro hcf
    refine ⟨k ++ " nil cancelFn in working status", ?_⟩
    simp only [AddWork, hv, hes, hcf]
    rw [if_neg (by simp [workStatus.IsWorking, hw])]
  · intro ci hcf hcw
    refine ⟨k ++ " nil work in working status", ?_⟩
    simp only [AddWork, hv, hes, hcf, hcw]
    rw [if_neg (by simp [workStatus.IsWorking, hw])]
  · intro hinv k2 w2 now2
    cases w2 with
    | none =>
      exact ⟨s, some ("validateWork for: " ++ k2 ++ " failed with error: " ++ "nil work"), rfl⟩
    | some wk2 =>
      cases hfn2 : wk2.Fn with
      | none =>
        refine ⟨s, some ("validateWork for: " ++ k2 ++ " failed with error: " ++ "nil work fn"), ?_⟩
        simp [AddWork, validateWork, hfn2]
      | some fb2 =>
        have hv2 : validateWork (some wk2) = none := by simp [validateWork, hfn2]
        cases hlk2 : alookup k2 s.workStatuses with
        | none =>
          have hes2 : ensureStatus s k2 =
              ({ s with workStatuses := aset k2 (some zeroWorkStatus) s.workStatuses }, zeroWorkStatus) := by
            simp [ensureStatus, hlk2]
          obtain ⟨s2, ci, st2, hcfw, _, _, _, _, _, _, _, _, _, _⟩ :=
            contextForWork_ok { s with workStatuses := aset k2 (some zeroWorkStatus) s.workStatuses }
              k2 wk2 now2 zeroWorkStatus (alookup_aset_self k2 (some zeroWorkStatus) s.workStatuses)
          refine ⟨{ s2 with inflight := s2.inflight ++ [(k2, ci, wk2)] }, none, ?_⟩
          simp only [AddWork, hv2, hes2]
          rw [if_pos (show zeroWorkStatus.IsWorking = false from rfl), hcfw]
        | some ost =>
          cases ost with
          | none =>
            have hes2 : ensureStatus s k2 =
                ({ s with workStatuses := aset k2 (some zeroWorkStatus) s.workStatuses }, zeroWorkStatus) := by
              simp [ensureStatus, hlk2]
            obtain ⟨s2, ci, st2, hcfw, _, _, _, _, _, _, _, _, _, _⟩ :=
              contextForWork_ok { s with workStatuses := aset k2 (some zeroWorkStatus) s.workStatuses }
                k2 wk2 now2 zeroWorkStatus (alookup_aset_self k2 (some zeroWorkStatus) s.workStatuses)
            refine ⟨{ s2 with inflight := s2.inflight ++ [(k2, ci, wk2)] }, none, ?_⟩
            simp only [AddWork, hv2, hes2]
            rw [if_pos (show zeroWorkStatus.IsWorking = false from rfl), hcfw]
          | some st3 =>
            have hes2 : ensureStatus s k2 = (s, st3) := by simp [ensureStatus, hlk2]
            cases hw3 : st3.working with
            | false =>
              obtain ⟨s2, ci, st2, hcfw, _, _, _, _, _, _, _, _, _, _⟩ :=
                contextForWork_ok s k2 wk2 now2 st3 hlk2
              refine ⟨{ s2 with inflight := s2.inflight ++ [(k2, ci, wk2)] }, none, ?_⟩
              simp only [AddWork, hv2, hes2]
              rw [if_pos (show workStatus.IsWorking st3 = false from hw3), hcfw]
            | true =>
              obtain ⟨ci3, hci3⟩ := Option.isSome_iff_exists.mp (hinv k2 st3 hlk2 hw3).1
              obtain ⟨cw3, hcw3⟩ := Option.isSome_iff_exists.mp (hinv k2 st3 hlk2 hw3).2
              refine ⟨{ s with lastUndeliveredWork := aset k2 wk2 s.lastUndeliveredWork, ctxCanceled := s.ctxCanceled.set ci3 true }, none, ?_⟩
              simp only [AddWork, hv2, hes2, hci3, hcw3]
              rw [if_neg (by simp [workStatus.IsWorking, hw3])]

/-- Witness for C9: AddWork on the corrupted `sBad` hits the fatal
branch. -/
theorem C9_fatal_invariant_witness :
    ∃ m, AddWork sBad "pod" (some wA) 0 = AddResult.fatal m :=
  (C9_fatal_invariant sBad "pod" wA 0 stBad FnBehavior.ok rfl rfl rfl).1 rfl

/-- A work whose function panics when invoked. -/
def wCrash : Work := { Fn := some FnBehavior.crash, Params := [3], DeliveredAt := 3 }

/-- The status of a key working on `wCrash`. -/
def stCrash : workStatus :=
  { working := true, ctx := some 0, cancelFn := some 0, work := some wCrash, startedAt := 3 }

/-- The scheduler state with `wCrash` dispatched and in flight for a key. -/
def demoCrash : AsyncWorkers :=
  { name := "aw", workStatuses := [("pod", some stCrash)], lastUndeliveredWork := [],
    ctxCanceled := [false], inflight := [("pod", 0, wCrash)] }

/-- C1 (amended): when the dispatched work's function returns — with a nil
or non-nil error — handleWork calls completeWork exactly once with that
outcome; but when the function panics, the panic unwinds handleWork before
the completeWork call and is absorbed by the recovery boundary of the
goroutine, so the crash does not propagate to the scheduler yet
completeWork is never invoked and the scheduler state is left unchanged. -/
theorem C1_amended (s : AsyncWorkers) (ctx : Nat) (k : String) (w : Work) (now : Nat) :
    (w.Fn = some FnBehavior.ok → handleWork s ctx k w now = completeWork s k w none now) ∧
    (∀ m, w.Fn = some (FnBehavior.fail m) →
      handleWork s ctx k w now = completeWork s k w (some m) now) ∧
    (w.Fn = some FnBehavior.crash → handleWork s ctx k w now = Except.ok s) := by
  refine ⟨?_, ?_, ?_⟩
  · intro h
    simp [handleWork, fnResult, h]
  · intro m h
    simp [handleWork, fnResult, h]
  · intro h
    simp [handleWork, fnResult, h]

/-- Witness for the amended C1: a normally returning work reaches
completeWork with its nil outcome. -/
theorem C1_amended_witness :
    handleWork demo2 0 "pod" wA 9 = completeWork demo2 "pod" wA none 9 :=
  (C1_amended demo2 0 "pod" wA 9).1 rfl

/-- C1 counterexample: for the concrete in-flight crashing work `wCrash`,
the dispatched execution ends with the scheduler state unchanged — the
key still marked working with no pending replacement — and that outcome
differs from any completeWork outcome, so completeWork is not invoked
after the crash, refuting the claim that handleWork always follows the
work's function with a completeWork call. -/
theorem C1_counterexample :
    handleWork demoCrash 0 "pod" wCrash 9 = Except.ok demoCrash ∧
    workingAt demoCrash "pod" = true ∧
    alookup "pod" demoCrash.lastUndeliveredWork = none ∧
    completeWork demoCrash "pod" wCrash none 9 ≠ Except.ok demoCrash := by
  refine ⟨rfl, rfl, rfl, ?_⟩
  intro h
  injection h with h1
  exact absurd h1 (by decide)

end Asyncworker
